import Mathlib

/-!
Verification of the contrast-grid data pipeline (src/js/scripts.js).

The JavaScript source is shallowly embedded: JS strings become Lean
`String` (lists of Unicode scalar values), JS arrays become `List`,
fallible operations return `Option`, and the browser collaborators
(URLSearchParams, encodeURIComponent / decodeURIComponent, JSON.parse /
JSON.stringify, tinycolor) are modelled as executable Lean functions on
the values this program actually passes them.  The external color
library tinycolor is abstracted as a validity predicate
`valid : String → Bool` and a ratio function
`readability : String → String → Rat`, both taken as parameters, since
the spec places color math outside the core.
-/

/-- A parsed color entry: a `color` string plus an optional display `name`,
mirroring the objects pushed by `getInputData` (which have a `color` key
and optionally a `name` key). -/
structure ColorEntry where
  color : String
  name : Option String
deriving DecidableEq, Repr, Inhabited

/-- JavaScript whitespace for `String.prototype.trim`: space, tab,
vertical tab, form feed, NBSP, BOM, and the line terminators. -/
def jsWsChar (c : Char) : Bool :=
  c = ' ' || c = '\t' || c = '\n' || c = '\r' ||
  c = '\u000b' || c = '\u000c' || c = '\u00a0' || c = '\ufeff' ||
  c = '\u2028' || c = '\u2029'

/-- Trim on character lists: drop leading whitespace, then trailing
whitespace (via reverse). -/
def trimList (l : List Char) : List Char :=
  ((l.dropWhile jsWsChar).reverse.dropWhile jsWsChar).reverse

/-- Model of `String.prototype.trim`. -/
def jsTrim (s : String) : String := ⟨trimList s.data⟩

/-- Line terminators not matched by `.` in a JavaScript regex. -/
def jsLineTerm (c : Char) : Bool :=
  c = '\n' || c = '\r' || c = '\u2028' || c = '\u2029'

/-- State machine for `replaceAll(/;(.*)/g, '')`: once a `;` is seen,
characters are dropped up to (but not including) the next line
terminator, after which scanning resumes. -/
def dropSemiAux : Bool → List Char → List Char
  | _, [] => []
  | true, c :: rest =>
    if jsLineTerm c then c :: dropSemiAux false rest else dropSemiAux true rest
  | false, c :: rest =>
    if c = ';' then dropSemiAux true rest else c :: dropSemiAux false rest

/-- Model of `item.replaceAll(/;(.*)/g, '')`. -/
def dropSemi (l : List Char) : List Char := dropSemiAux false l

/-- Model of `item.replaceAll(/,$/g, '')`: remove one trailing comma
(the `$` anchor matches only at the very end of the string). -/
def stripTrailingComma (l : List Char) : List Char :=
  if l.getLast? = some ',' then l.dropLast else l

/-- The per-segment cleanup of `getInputData`: remove a semicolon and
what follows it, trim, remove one trailing comma, trim again. -/
def cleanSegment (s : String) : String :=
  ⟨trimList (stripTrailingComma (trimList (dropSemi s.data)))⟩

/-- Model of `String.prototype.split` on a single separator character:
`splitOnChar c l` returns the (always non-empty) list of chunks. -/
def splitOnChar (sep : Char) : List Char → List (List Char)
  | [] => [[]]
  | c :: rest =>
    if c = sep then [] :: splitOnChar sep rest
    else
      match splitOnChar sep rest with
      | [] => [[c]]
      | chunk :: chunks => (c :: chunk) :: chunks

/-- Split a string into the list of strings produced by `s.split(sep)`. -/
def jsSplit (sep : Char) (s : String) : List String :=
  (splitOnChar sep s.data).map (fun cs => (⟨cs⟩ : String))

/-- Accumulator of the inner `forEach` of `getInputData`: the keys of
the `data` object built so far plus the `lineHasValidColor` flag. -/
structure SegState where
  color : Option String
  name : Option String
  lineHasValidColor : Bool
deriving DecidableEq, Repr

/-- One iteration of the inner `forEach` of `getInputData` (for the
segment indices below 2): clean the segment, reset the flag, then
either record a color, record a name, or do nothing. -/
def processSegment (valid : String → Bool) (st : SegState) (rawItem : String) : SegState :=
  let item := cleanSegment rawItem
  if valid item then
    { color := some item, name := st.name, lineHasValidColor := true }
  else if item.length ≠ 0 then
    { color := st.color, name := some item, lineHasValidColor := false }
  else
    { color := st.color, name := st.name, lineHasValidColor := false }

/-- Processing of a single line of `getInputData`: split on `:`, run the
segment loop over the first two segments (indices ≥ 2 return early, and
they return before the flag reset), and push an entry when the `data`
object is non-empty and the last processed segment was a valid color. -/
def processLine (valid : String → Bool) (line : String) : Option ColorEntry :=
  let lineArray := jsSplit ':' line
  let st := (lineArray.take 2).foldl (processSegment valid) ⟨none, none, false⟩
  if (st.color.isSome || st.name.isSome) && st.lineHasValidColor then
    st.color.map (fun c => { color := c, name := st.name })
  else none

/-- Model of `getInputData`: split the input on line breaks and collect
the entry of each line (if any) in order, as the `forEach`/`push` loop
does.  tinycolor validity is the parameter `valid`. -/
def getInputData (valid : String → Bool) (s : String) : List ColorEntry :=
  (jsSplit '\n' s).foldl
    (fun acc line => acc ++ (processLine valid line).toList) []

/-- The last segment the loop of `getInputData` processes on a line:
the second `:`-delimited segment when one exists, the first otherwise
(segments past the second are ignored).  Used to state the
line-acceptance rule. -/
def lastProcessedSegment (line : String) : String :=
  match jsSplit ':' line with
  | [] => ""
  | [a] => a
  | _ :: b :: _ => b

/-- Hex digit test. -/
def isHexDigitChar (c : Char) : Bool :=
  ('0' ≤ c && c ≤ '9') || ('a' ≤ c && c ≤ 'f') || ('A' ≤ c && c ≤ 'F')

/-- Concrete stand-in for tinycolor validity used in witnesses and
counterexamples: accepts `#` followed by exactly 3 or 6 hex digits
(a fragment of the formats tinycolor accepts; the strings appearing in
concrete inputs below are classified exactly as tinycolor would). -/
def hexValid (s : String) : Bool :=
  match s.data with
  | '#' :: rest =>
    (rest.length = 3 || rest.length = 6) && rest.all isHexDigitChar
  | _ => false

/-! ## Percent-encoding collaborators

`encodeURIComponent` percent-encodes the UTF-8 bytes of every character
outside the unreserved set; `decodeURIComponent` inverts this and
throws (here: `none`) on malformed percent sequences or invalid UTF-8.
They are modelled byte-exactly. -/

/-- The characters `encodeURIComponent` leaves unescaped. -/
def uriUnreserved (c : Char) : Bool :=
  ('A' ≤ c && c ≤ 'Z') || ('a' ≤ c && c ≤ 'z') || ('0' ≤ c && c ≤ '9') ||
  c = '-' || c = '_' || c = '.' || c = '!' || c = '~' || c = '*' ||
  c = '\'' || c = '(' || c = ')'

/-- UTF-8 bytes of a Unicode scalar value. -/
def utf8Bytes (c : Char) : List Nat :=
  if c.toNat < 0x80 then [c.toNat]
  else if c.toNat < 0x800 then [0xC0 + c.toNat / 64, 0x80 + c.toNat % 64]
  else if c.toNat < 0x10000 then
    [0xE0 + c.toNat / 4096, 0x80 + c.toNat / 64 % 64, 0x80 + c.toNat % 64]
  else
    [0xF0 + c.toNat / 262144, 0x80 + c.toNat / 4096 % 64,
      0x80 + c.toNat / 64 % 64, 0x80 + c.toNat % 64]

/-- Uppercase hexadecimal digit, as produced by `encodeURIComponent`. -/
def hexDigitUpper (n : Nat) : Char :=
  if n < 10 then Char.ofNat ('0'.toNat + n) else Char.ofNat ('A'.toNat + n - 10)

/-- A `%XX` escape for one byte. -/
def pctByte (b : Nat) : List Char :=
  ['%', hexDigitUpper (b / 16), hexDigitUpper (b % 16)]

/-- Encoding of a single character by `encodeURIComponent`. -/
def encURIChar (c : Char) : List Char :=
  if uriUnreserved c then [c] else (utf8Bytes c).flatMap pctByte

/-- Model of `encodeURIComponent`. -/
def encodeURIComponent (s : String) : String :=
  ⟨s.data.flatMap encURIChar⟩

/-- Value of one hexadecimal digit (either case), `none` otherwise. -/
def hexVal (c : Char) : Option Nat :=
  let n := c.toNat
  if 48 ≤ n ∧ n ≤ 57 then some (n - 48)
  else if 97 ≤ n ∧ n ≤ 102 then some (n - 87)
  else if 65 ≤ n ∧ n ≤ 70 then some (n - 55)
  else none

/-- First pass of `decodeURIComponent`: replace every `%XX` escape by
the byte it denotes (`Sum.inr`), leaving other characters (`Sum.inl`);
`none` on an incomplete or non-hexadecimal escape. -/
def pctDecode : List Char → Option (List (Char ⊕ Nat))
  | [] => some []
  | '%' :: h1 :: h2 :: rest =>
    match hexVal h1, hexVal h2 with
    | some d1, some d2 => (pctDecode rest).map (Sum.inr (d1 * 16 + d2) :: ·)
    | _, _ => none
  | '%' :: _ => none
  | c :: rest =>
    if c = '%' then none else (pctDecode rest).map (Sum.inl c :: ·)

mutual

/-- Second pass of `decodeURIComponent`: literal characters pass
through, decoded bytes must form minimal-length, scalar-value UTF-8
sequences (overlong encodings, surrogates, out-of-range values and
stray or missing continuation bytes all throw, i.e. give `none`).
The 2-, 3- and 4-byte sequences are handled by the helpers below. -/
def utf8Assemble : List (Char ⊕ Nat) → Option (List Char)
  | [] => some []
  | Sum.inl c :: rest => (utf8Assemble rest).map (c :: ·)
  | Sum.inr b0 :: rest =>
    if b0 < 0x80 then (utf8Assemble rest).map (Char.ofNat b0 :: ·)
    else if b0 < 0xC2 then none
    else if b0 < 0xE0 then utf8Two b0 rest
    else if b0 < 0xF0 then utf8Three b0 rest
    else if b0 < 0xF5 then utf8Four b0 rest
    else none

/-- Continuation of a 2-byte UTF-8 sequence with leading byte `b0`. -/
def utf8Two : Nat → List (Char ⊕ Nat) → Option (List Char)
  | b0, Sum.inr b1 :: rest =>
    if 0x80 ≤ b1 && b1 < 0xC0 then
      (utf8Assemble rest).map (Char.ofNat ((b0 - 0xC0) * 64 + (b1 - 0x80)) :: ·)
    else none
  | _, _ => none

/-- Continuation of a 3-byte UTF-8 sequence with leading byte `b0`. -/
def utf8Three : Nat → List (Char ⊕ Nat) → Option (List Char)
  | b0, Sum.inr b1 :: Sum.inr b2 :: rest =>
    if (0x80 ≤ b1 && b1 < 0xC0) && (0x80 ≤ b2 && b2 < 0xC0) then
      let n := (b0 - 0xE0) * 4096 + (b1 - 0x80) * 64 + (b2 - 0x80)
      if 0x800 ≤ n && (n < 0xD800 || 0xE000 ≤ n) then
        (utf8Assemble rest).map (Char.ofNat n :: ·)
      else none
    else none
  | _, _ => none

/-- Continuation of a 4-byte UTF-8 sequence with leading byte `b0`. -/
def utf8Four : Nat → List (Char ⊕ Nat) → Option (List Char)
  | b0, Sum.inr b1 :: Sum.inr b2 :: Sum.inr b3 :: rest =>
    if (0x80 ≤ b1 && b1 < 0xC0) &&
        ((0x80 ≤ b2 && b2 < 0xC0) && (0x80 ≤ b3 && b3 < 0xC0)) then
      let n := (b0 - 0xF0) * 262144 + (b1 - 0x80) * 4096 + (b2 - 0x80) * 64 + (b3 - 0x80)
      if 0x10000 ≤ n && n < 0x110000 then
        (utf8Assemble rest).map (Char.ofNat n :: ·)
      else none
    else none
  | _, _ => none

end

/-- Model of `decodeURIComponent`; `none` models a thrown `URIError`. -/
def decodeURIComponent (s : String) : Option String :=
  (pctDecode s.data).bind (fun bs => (utf8Assemble bs).map (fun cs => (⟨cs⟩ : String)))

/-! ## URLSearchParams

`location.search` is modelled as the ordered key–value list an
`URLSearchParams` holds; its string serialization and re-parsing are
the browser's inverse pair and are not re-modelled. -/

/-- The parsed query string: an ordered list of key–value pairs. -/
def QueryParams : Type := List (String × String)

/-- Model of `URLSearchParams.get`: value of the first pair with the
given key, or `null` (`none`). -/
def paramsGet (p : QueryParams) (k : String) : Option String :=
  ((p : List (String × String)).find? (fun kv => kv.1 = k)).map (fun kv => kv.2)

/-- Model of `URLSearchParams.delete`: remove every pair with the key. -/
def paramsDelete (p : QueryParams) (k : String) : QueryParams :=
  (p : List (String × String)).filter (fun kv => ¬ kv.1 = k)

/-- Model of `URLSearchParams.set`: replace the value of the first pair
with the key and drop the other pairs with that key, or append a fresh
pair at the end when the key is absent. -/
def paramsSet : QueryParams → String → String → QueryParams
  | [], k, v => [(k, v)]
  | kv :: rest, k, v =>
    if kv.1 = k then (k, v) :: paramsDelete rest k
    else kv :: paramsSet rest k v

/-! ## JSON collaborator

`JSON.stringify` / `JSON.parse` are modelled over an inductive `Json`
type.  Numbers are kept as their source token (the pipeline never
serializes or consumes JSON numbers, so only their syntax matters). -/

/-- A JavaScript JSON value. -/
inductive Json where
  | null : Json
  | bool (b : Bool) : Json
  | num (token : String) : Json
  | str (s : String) : Json
  | arr (elems : List Json) : Json
  | obj (members : List (String × Json)) : Json
deriving Repr, Inhabited

/-- Lowercase hexadecimal digit, as produced by `JSON.stringify` in
`\u00xx` escapes. -/
def hexDigitLower (n : Nat) : Char :=
  if n < 10 then Char.ofNat ('0'.toNat + n) else Char.ofNat ('a'.toNat + n - 10)

/-- Escaping of one character inside a `JSON.stringify` string literal:
quote, backslash and control characters are escaped (the control
characters with short forms use them), everything else is literal. -/
def jsonEscapeChar (c : Char) : List Char :=
  if c = '"' then ['\\', '"']
  else if c = '\\' then ['\\', '\\']
  else if c = '\u0008' then ['\\', 'b']
  else if c = '\t' then ['\\', 't']
  else if c = '\n' then ['\\', 'n']
  else if c = '\u000c' then ['\\', 'f']
  else if c = '\r' then ['\\', 'r']
  else if c.toNat < 32 then
    ['\\', 'u', '0', '0', hexDigitLower (c.toNat / 16), hexDigitLower (c.toNat % 16)]
  else [c]

/-- Escaped body of a string literal. -/
def jsonEscape (s : String) : List Char := s.data.flatMap jsonEscapeChar

/-- A quoted, escaped string literal followed by a continuation. -/
def qstrThen (s : String) (rest : List Char) : List Char :=
  '"' :: (jsonEscape s ++ '"' :: rest)

/-- Characters of `JSON.stringify` applied to one entry object.  The
objects built by `getInputData` hold their keys in insertion order:
`name` (assigned first, from an earlier segment) before `color`. -/
def strEntryChars (e : ColorEntry) (rest : List Char) : List Char :=
  match e.name with
  | some n =>
    '{' :: qstrThen "name" (':' :: qstrThen n (',' ::
      qstrThen "color" (':' :: qstrThen e.color ('}' :: rest))))
  | none =>
    '{' :: qstrThen "color" (':' :: qstrThen e.color ('}' :: rest))

/-- Remaining elements (with leading commas) and the closing bracket. -/
def strEntriesAux : List ColorEntry → List Char → List Char
  | [], rest => ']' :: rest
  | e :: es, rest => ',' :: strEntryChars e (strEntriesAux es rest)

/-- Characters of `JSON.stringify` applied to an array of entries. -/
def strEntriesChars : List ColorEntry → List Char → List Char
  | [], rest => '[' :: ']' :: rest
  | e :: es, rest => '[' :: strEntryChars e (strEntriesAux es rest)

/-- `JSON.stringify` on the entry arrays this program serializes. -/
def stringifyEntries (l : List ColorEntry) : String := ⟨strEntriesChars l []⟩

/-- The `Json` value `JSON.parse` recovers from a serialized entry. -/
def entryToJson (e : ColorEntry) : Json :=
  match e.name with
  | some n => Json.obj [("name", Json.str n), ("color", Json.str e.color)]
  | none => Json.obj [("color", Json.str e.color)]

/-- The `Json` value `JSON.parse` recovers from a serialized axis. -/
def entriesToJson (l : List ColorEntry) : Json := Json.arr (l.map entryToJson)

/-- Interpretation of a `Json` value as an entry object, inverse of
`entryToJson` (used only to state round-trip claims). -/
def entryOfJson : Json → Option ColorEntry
  | Json.obj [("color", Json.str c)] => some ⟨c, none⟩
  | Json.obj [("name", Json.str n), ("color", Json.str c)] => some ⟨c, some n⟩
  | _ => none

/-- Interpretation of a `Json` value as an axis, inverse of
`entriesToJson` (used only to state round-trip claims). -/
def entriesOfJson : Json → Option (List ColorEntry)
  | Json.arr elems => elems.mapM entryOfJson
  | _ => none

/-- JSON whitespace. -/
def jsonWs (c : Char) : Bool := c = ' ' || c = '\t' || c = '\n' || c = '\r'

/-- Skip JSON whitespace. -/
def skipWs (l : List Char) : List Char := l.dropWhile jsonWs

/-- The single-character escapes of a JSON string literal. -/
def jsonUnescape (e : Char) : Option Char :=
  if e = '"' then some '"'
  else if e = '\\' then some '\\'
  else if e = '/' then some '/'
  else if e = 'b' then some '\u0008'
  else if e = 'f' then some '\u000c'
  else if e = 'n' then some '\n'
  else if e = 'r' then some '\r'
  else if e = 't' then some '\t'
  else none

mutual

/-- Body of a JSON string literal, after the opening quote: returns the
unescaped characters and the input after the closing quote.  A `\uXXXX`
escape denoting a surrogate code unit is rejected (a deliberate
restriction of the model: Lean strings hold scalar values only, and the
program never produces such escapes). -/
def parseStr : List Char → Option (List Char × List Char)
  | [] => none
  | c :: rest =>
    if c = '"' then some ([], rest)
    else if c = '\\' then parseStrEsc rest
    else if c.toNat < 32 then none
    else (parseStr rest).map (fun p => (c :: p.1, p.2))

/-- A string-literal escape, after the backslash. -/
def parseStrEsc : List Char → Option (List Char × List Char)
  | [] => none
  | e :: rest =>
    if e = 'u' then parseStrU rest
    else
      match jsonUnescape e with
      | some c2 => (parseStr rest).map (fun p => (c2 :: p.1, p.2))
      | none => none

/-- The four hex digits of a `\uXXXX` escape. -/
def parseStrU : List Char → Option (List Char × List Char)
  | a :: b :: c :: d :: rest =>
    match hexVal a, hexVal b, hexVal c, hexVal d with
    | some h1, some h2, some h3, some h4 =>
      let n := ((h1 * 16 + h2) * 16 + h3) * 16 + h4
      if Nat.isValidChar n then
        (parseStr rest).map (fun p => (Char.ofNat n :: p.1, p.2))
      else none
    | _, _, _, _ => none
  | _ => none

end

/-- Exponent part of a JSON number, given the token so far. -/
def parseNumExpTail (tok : List Char) (echr : Char) (l : List Char) : Option (Json × List Char) :=
  let (sgn, l1) : List Char × List Char :=
    match l with
    | '+' :: r => (['+'], r)
    | '-' :: r => (['-'], r)
    | _ => ([], l)
  let ds := l1.takeWhile Char.isDigit
  if ds.isEmpty then none
  else some (Json.num ⟨tok ++ echr :: (sgn ++ ds)⟩, l1.dropWhile Char.isDigit)

/-- Optional exponent of a JSON number. -/
def parseNumExp (tok : List Char) (l : List Char) : Option (Json × List Char) :=
  match l with
  | 'e' :: rest => parseNumExpTail tok 'e' rest
  | 'E' :: rest => parseNumExpTail tok 'E' rest
  | _ => some (Json.num ⟨tok⟩, l)

/-- Optional fraction and exponent of a JSON number. -/
def parseNumFrac (tok : List Char) (l : List Char) : Option (Json × List Char) :=
  match l with
  | '.' :: rest =>
    let fs := rest.takeWhile Char.isDigit
    if fs.isEmpty then none
    else parseNumExp (tok ++ '.' :: fs) (rest.dropWhile Char.isDigit)
  | _ => parseNumExp tok l

/-- A JSON number token: optional minus, an integer part without
leading zeros, optional fraction, optional exponent. -/
def parseNumber (l : List Char) : Option (Json × List Char) :=
  let (neg, l1) : List Char × List Char :=
    match l with
    | '-' :: r => (['-'], r)
    | _ => ([], l)
  let ds := l1.takeWhile Char.isDigit
  if ds.isEmpty then none
  else if ds.head? = some '0' && ds.length ≠ 1 then none
  else parseNumFrac (neg ++ ds) (l1.dropWhile Char.isDigit)

/-- The key of a JSON object member and its following colon: a quoted
string, then (whitespace and) `:`; returns the key and the input after
the colon. -/
def parseMemberHead (l : List Char) : Option (String × List Char) :=
  match skipWs l with
  | '"' :: r =>
    match parseStr r with
    | some (k, r1) =>
      match skipWs r1 with
      | ':' :: r2 => some (⟨k⟩, r2)
      | _ => none
    | none => none
  | _ => none

mutual

/-- Fueled JSON value parser (model of `JSON.parse`'s grammar).  The
fuel only bounds bracket nesting and element counts; `jsonParse` below
supplies more fuel than any input can consume. -/
def parseValue : Nat → List Char → Option (Json × List Char)
  | 0, _ => none
  | Nat.succ f, l =>
    match skipWs l with
    | [] => none
    | c :: rest =>
      if c = '"' then (parseStr rest).map (fun p => (Json.str ⟨p.1⟩, p.2))
      else if c = '[' then
        match skipWs rest with
        | ']' :: r2 => some (Json.arr [], r2)
        | r2 => (parseElems f r2).map (fun p => (Json.arr p.1, p.2))
      else if c = '{' then
        match skipWs rest with
        | '}' :: r2 => some (Json.obj [], r2)
        | r2 => (parseMembers f r2).map (fun p => (Json.obj p.1, p.2))
      else if c = 'n' then
        match rest with
        | 'u' :: 'l' :: 'l' :: r => some (Json.null, r)
        | _ => none
      else if c = 't' then
        match rest with
        | 'r' :: 'u' :: 'e' :: r => some (Json.bool true, r)
        | _ => none
      else if c = 'f' then
        match rest with
        | 'a' :: 'l' :: 's' :: 'e' :: r => some (Json.bool false, r)
        | _ => none
      else parseNumber (c :: rest)

/-- Elements of a non-empty JSON array, up to and including `]`. -/
def parseElems : Nat → List Char → Option (List Json × List Char)
  | 0, _ => none
  | Nat.succ f, l =>
    match parseValue f l with
    | none => none
    | some (v, r) =>
      match skipWs r with
      | ',' :: r2 => (parseElems f r2).map (fun p => (v :: p.1, p.2))
      | ']' :: r2 => some ([v], r2)
      | _ => none

/-- Members of a non-empty JSON object, up to and including the
closing brace. -/
def parseMembers : Nat → List Char → Option (List (String × Json) × List Char)
  | 0, _ => none
  | Nat.succ f, l =>
    match parseMemberHead l with
    | some (k, r2) =>
      match parseValue f r2 with
      | some (v, r3) =>
        match skipWs r3 with
        | ',' :: r4 => (parseMembers f r4).map (fun p => ((k, v) :: p.1, p.2))
        | '}' :: r4 => some ([(k, v)], r4)
        | _ => none
      | none => none
    | none => none

end

/-- Model of `JSON.parse`: parse one value, allowing surrounding
whitespace and nothing else; `none` models a thrown `SyntaxError`. -/
def jsonParse (s : String) : Option Json :=
  match parseValue (s.data.length + 8) s.data with
  | some (j, rest) => if (skipWs rest).isEmpty then some j else none
  | none => none

/-! ## StateCodec: setQueryParams / getDataFromQueryParams -/

/-- Model of `setQueryParams`: when `xAxisData` is non-empty, set the
`xAxisData` parameter to the percent-encoded JSON of `x`, set or delete
`yAxisData` according to whether the JSON serializations differ, and
push the result (`some`); otherwise do nothing at all (`none` — no
`history.pushState` call is made). -/
def setQueryParams (xAxisData yAxisData : List ColorEntry) (params : QueryParams) :
    Option QueryParams :=
  if xAxisData.length ≠ 0 then
    some (if stringifyEntries xAxisData ≠ stringifyEntries yAxisData then
      paramsSet (paramsSet params "xAxisData" (encodeURIComponent (stringifyEntries xAxisData)))
        "yAxisData" (encodeURIComponent (stringifyEntries yAxisData))
    else
      paramsDelete (paramsSet params "xAxisData" (encodeURIComponent (stringifyEntries xAxisData)))
        "yAxisData")
  else none

/-- JavaScript's string coercion of `URLSearchParams.get`'s result as
it is passed to `decodeURIComponent`: an absent parameter is `null`,
which coerces to the string `"null"`. -/
def strOfNullable : Option String → String
  | some v => v
  | none => "null"

/-- One iteration of the `forEach` in `getDataFromQueryParams`:
`JSON.parse(decodeURIComponent(urlParams.get(axis)))`, where `none`
models a thrown exception. -/
def decodeAxis (params : QueryParams) (axis : String) : Option Json :=
  (decodeURIComponent (strOfNullable (paramsGet params axis))).bind jsonParse

/-- Model of `getDataFromQueryParams`: decode both axes in order; an
exception in either aborts the whole call. -/
def getDataFromQueryParams (params : QueryParams) : Option (Json × Json) :=
  (decodeAxis params "xAxisData").bind (fun x =>
    (decodeAxis params "yAxisData").map (fun y => (x, y)))

/-- JavaScript truthiness of a JSON value (`handlePopstate` tests
`dataFromParams.yAxisData ? ... : ...`).  For number tokens, a numeric
value is falsy exactly when it denotes zero, i.e. when its token has no
nonzero digit. -/
def jsTruthy : Json → Bool
  | Json.null => false
  | Json.bool b => b
  | Json.num t => t.data.any (fun c => c.isDigit && c ≠ '0')
  | Json.str s => !s.isEmpty
  | Json.arr _ => true
  | Json.obj _ => true

/-- The axis pair `handlePopstate` reconstructs from the query string:
`yAxisData` falls back to `xAxisData` when it is not truthy (the absent
parameter decodes to `null`). -/
def handlePopstateAxes (params : QueryParams) : Option (Json × Json) :=
  (getDataFromQueryParams params).map (fun xy =>
    (xy.1, if jsTruthy xy.2 then xy.2 else xy.1))

/-- The reconstructed state read back as entry lists (composition of
`handlePopstateAxes` with the `Json` interpretation, used to state the
round-trip claim at the `ColorEntry` level). -/
def decodeStateEntries (params : QueryParams) : Option (List ColorEntry × List ColorEntry) :=
  (handlePopstateAxes params).bind (fun xy =>
    (entriesOfJson xy.1).bind (fun x =>
      (entriesOfJson xy.2).map (fun y => (x, y))))

/-! ## MatrixModel: buildTableTds / buildDataRows

The HTML wrapper markup is outside the core (spec §1); the model keeps
the logical content of the cells that `buildTableTds` and
`buildDataRows` generate, with `tinycolor.readability` abstracted as a
parameter. -/

/-- Model of `buildTableTds`: one cell per X entry, in X order, whose
content is the contrast ratio `readability(data.color, compareColor)`. -/
def buildTableTds (readability : String → String → Rat)
    (xAxisData : List ColorEntry) (compareColor : String) : List Rat :=
  xAxisData.map (fun data => readability data.color compareColor)

/-- Model of `buildDataRows`: one row per Y entry, in Y order, each row
built by `buildTableTds` against that row's color. -/
def buildDataRows (readability : String → String → Rat)
    (xAxisData yAxisData : List ColorEntry) : List (List Rat) :=
  yAxisData.map (fun data => buildTableTds readability xAxisData data.color)

/-! ## Contrast threshold: toFixed(2) display and setCellContrast -/

/-- Decimal digit character. -/
def digitChar (n : Nat) : Char := Char.ofNat ('0'.toNat + n)

/-- Fueled decimal digit list of a natural number (most significant
first); the wrapper `natDigits` supplies sufficient fuel. -/
def natDigitsF : Nat → Nat → List Char
  | 0, _ => []
  | Nat.succ f, n =>
    if n < 10 then [digitChar n] else natDigitsF f (n / 10) ++ [digitChar (n % 10)]

/-- Decimal digits of a natural number. -/
def natDigits (n : Nat) : List Char := natDigitsF (n + 1) n

/-- Numeric value of a digit character. -/
def digitVal (c : Char) : Nat := c.toNat - '0'.toNat

/-- Value of a decimal digit list (most significant first). -/
def digitsVal (l : List Char) : Nat := l.foldl (fun acc c => acc * 10 + digitVal c) 0

/-- Model of `Number.prototype.toFixed(2)` for the nonnegative numbers
this program formats (contrast ratios are at least 1): round to the
nearest hundredth, half away from zero, and print two decimals. -/
def toFixed2 (r : Rat) : String :=
  let n := (⌊r * 100 + 1 / 2⌋).toNat
  ⟨natDigits (n / 100) ++ '.' :: [digitChar (n % 100 / 10), digitChar (n % 10)]⟩

/-- The text content of a grid cell: the template literal of
`buildTableTds` surrounds the formatted ratio with layout whitespace. -/
def cellText (readability : Rat) : String :=
  ⟨'\n' :: ' ' :: ' ' :: ' ' :: ' ' :: ((toFixed2 readability).data ++ '\n' :: [' ', ' '])⟩

/-- The optional sign read by `parseFloat` (as a factor) and the input
after it. -/
def parseFloatSign : List Char → Rat × List Char
  | '-' :: r => (-1, r)
  | '+' :: r => (1, r)
  | l => (1, l)

/-- The optional fraction part read by `parseFloat`: its digits and the
input after them. -/
def parseFloatFrac : List Char → List Char × List Char
  | '.' :: rr => (rr.takeWhile Char.isDigit, rr.dropWhile Char.isDigit)
  | l => ([], l)

/-- Exponent value of `parseFloat` after `e`/`E` (0 when incomplete, as
`parseFloat` takes the longest valid numeric prefix). -/
def parseFloatExpTail (l : List Char) : Int :=
  let sl : Int × List Char :=
    match l with
    | '-' :: r => (-1, r)
    | '+' :: r => (1, r)
    | _ => (1, l)
  let ds := sl.2.takeWhile Char.isDigit
  if ds.isEmpty then 0 else sl.1 * (digitsVal ds : Int)

/-- The optional exponent of `parseFloat` (0 when absent). -/
def parseFloatExp : List Char → Int
  | 'e' :: rest => parseFloatExpTail rest
  | 'E' :: rest => parseFloatExpTail rest
  | _ => 0

/-- Model of `parseFloat`: skip JavaScript whitespace, read an optional
sign, integer digits, an optional fraction and an optional exponent,
ignore everything after the number, and fail (`NaN`, here `none`) when
no digits were read.  (`Infinity` literals never occur here and are not
modelled.) -/
def parseFloat (s : String) : Option Rat :=
  let sl := parseFloatSign (s.data.dropWhile jsWsChar)
  let ds := sl.2.takeWhile Char.isDigit
  let fr := parseFloatFrac (sl.2.dropWhile Char.isDigit)
  if ds.isEmpty && fr.1.isEmpty then none
  else
    some (sl.1 * ((digitsVal ds : Rat) + (digitsVal fr.1 : Rat) / (10 : Rat) ^ fr.1.length) *
      (10 : Rat) ^ parseFloatExp fr.2)

/-- Model of the per-cell decision of `setCellContrast`: the cell's
class list gains `doesNotMeet` exactly when
`parseFloat(cell.textContent) < contrast`.  The cell's text is the
`toFixed(2)` display of its ratio, so the comparison sees the rounded
display value, not the full-precision ratio. -/
def setCellContrast (ratio : Rat) (contrast : Rat) : Bool :=
  match parseFloat (cellText ratio) with
  | some v => decide (v < contrast)
  | none => false

/-- Rounding to two decimals, half away from zero (for nonnegative
inputs): the value `toFixed(2)` displays. -/
def round2 (r : Rat) : Rat := ((⌊r * 100 + 1 / 2⌋ : Int) : Rat) / 100

/-! ## Axis reversal -/

/-- Model of `reverseInputData` on the two textarea values: when the Y
text is whitespace-only nothing happens, otherwise the texts are
swapped wholesale. -/
def reverseInputData (xValue yValue : String) : String × String :=
  if (jsTrim yValue).length = 0 then (xValue, yValue) else (yValue, xValue)

/-! # Theorems -/

/-! ## URLSearchParams lemmas -/

theorem paramsGet_cons (a b k : String) (rest : List (String × String)) :
    paramsGet ((a, b) :: rest) k = if a = k then some b else paramsGet rest k := by
  by_cases h : a = k <;> simp [paramsGet, List.find?_cons, h]

theorem paramsDelete_cons (a b k : String) (rest : List (String × String)) :
    paramsDelete ((a, b) :: rest) k =
      if a = k then paramsDelete rest k else (a, b) :: paramsDelete rest k := by
  by_cases h : a = k <;> simp [paramsDelete, List.filter_cons, h]

theorem paramsGet_set_self (p : QueryParams) (k v : String) :
    paramsGet (paramsSet p k v) k = some v := by
  induction p with
  | nil => simp [paramsSet, paramsGet_cons]
  | cons kv rest ih =>
    by_cases h : kv.1 = k
    · simp [paramsSet, h, paramsGet_cons]
    · obtain ⟨a, b⟩ := kv
      simp only at h
      simp [paramsSet, h, paramsGet_cons, ih]

theorem paramsGet_delete_self (p : QueryParams) (k : String) :
    paramsGet (paramsDelete p k) k = none := by
  induction p with
  | nil => simp [paramsDelete, paramsGet]
  | cons kv rest ih =>
    obtain ⟨a, b⟩ := kv
    by_cases h : a = k
    · simp [paramsDelete_cons, h, ih]
    · simp [paramsDelete_cons, h, paramsGet_cons, ih]

theorem paramsGet_delete_ne (p : QueryParams) (k k' : String) (h : k' ≠ k) :
    paramsGet (paramsDelete p k) k' = paramsGet p k' := by
  induction p with
  | nil => simp [paramsDelete, paramsGet]
  | cons kv rest ih =>
    obtain ⟨a, b⟩ := kv
    by_cases hk : a = k
    · have hkk : ¬ k = k' := fun hh => h hh.symm
      simp [paramsDelete_cons, hk, paramsGet_cons, hkk, ih]
    · rw [paramsDelete_cons, if_neg hk, paramsGet_cons, paramsGet_cons, ih]

theorem paramsGet_set_ne (p : QueryParams) (k k' v : String) (h : k' ≠ k) :
    paramsGet (paramsSet p k v) k' = paramsGet p k' := by
  induction p with
  | nil =>
    have : ¬ k = k' := fun hh => h hh.symm
    simp [paramsSet, paramsGet_cons, this, paramsGet]
  | cons kv rest ih =>
    obtain ⟨a, b⟩ := kv
    by_cases hk : a = k
    · have hkk : ¬ k = k' := fun hh => h hh.symm
      simp [paramsSet, hk, paramsGet_cons, hkk, paramsGet_delete_ne rest k k' h]
    · rw [paramsSet, if_neg hk, paramsGet_cons, paramsGet_cons, ih]

/-! ## Claims about setQueryParams (C2, C9) -/

/-- C2: for every non-empty `x`, encode (setQueryParams) sets the
`xAxisData` parameter to the percent-encoded JSON serialization of `x`,
sets `yAxisData` to the percent-encoded JSON serialization of `y`
exactly when the JSON serializations differ, and deletes any existing
`yAxisData` parameter when they are identical. -/
theorem setQueryParams_compaction (x y : List ColorEntry) (p p' : QueryParams)
    (hset : setQueryParams x y p = some p') :
    paramsGet p' "xAxisData" = some (encodeURIComponent (stringifyEntries x)) ∧
    (stringifyEntries x ≠ stringifyEntries y →
      paramsGet p' "yAxisData" = some (encodeURIComponent (stringifyEntries y))) ∧
    (stringifyEntries x = stringifyEntries y → paramsGet p' "yAxisData" = none) := by
  by_cases hx : x.length ≠ 0
  · rw [setQueryParams, if_pos hx] at hset
    by_cases hxy : stringifyEntries x ≠ stringifyEntries y
    · rw [if_pos hxy] at hset
      obtain rfl : _ = p' := Option.some.inj hset
      refine ⟨?_, fun _ => paramsGet_set_self _ _ _, fun he => absurd he hxy⟩
      rw [paramsGet_set_ne _ _ _ _ (by decide), paramsGet_set_self]
    · rw [if_neg hxy] at hset
      obtain rfl : _ = p' := Option.some.inj hset
      refine ⟨?_, fun hne => absurd hne hxy, fun _ => paramsGet_delete_self _ _⟩
      rw [paramsGet_delete_ne _ _ _ (by decide), paramsGet_set_self]
  · rw [setQueryParams, if_neg hx] at hset
    exact absurd hset (by simp)

theorem setQueryParams_compaction_witness :
    paramsGet ((setQueryParams [⟨"#fff", none⟩] [⟨"#fff", none⟩]
        [("yAxisData", "junk")]).getD []) "yAxisData" = none :=
  (setQueryParams_compaction [⟨"#fff", none⟩] [⟨"#fff", none⟩]
    [("yAxisData", "junk")] _ rfl).2.2 rfl

/-- C9: encode (setQueryParams) performs no mutation at all when `x` is
empty (no `history.pushState` happens), and when it does push a new
query string, every parameter other than `xAxisData` and `yAxisData` is
preserved unchanged. -/
theorem setQueryParams_frame (x y : List ColorEntry) (p : QueryParams) :
    (x = [] → setQueryParams x y p = none) ∧
    (∀ p' k, setQueryParams x y p = some p' → k ≠ "xAxisData" → k ≠ "yAxisData" →
      paramsGet p' k = paramsGet p k) := by
  constructor
  · intro hx
    rw [setQueryParams, if_neg (by simp [hx])]
  · intro p' k hset hkx hky
    by_cases hx : x.length ≠ 0
    · rw [setQueryParams, if_pos hx] at hset
      by_cases hxy : stringifyEntries x ≠ stringifyEntries y
      · rw [if_pos hxy] at hset
        obtain rfl : _ = p' := Option.some.inj hset
        rw [paramsGet_set_ne _ _ _ _ hky, paramsGet_set_ne _ _ _ _ hkx]
      · rw [if_neg hxy] at hset
        obtain rfl : _ = p' := Option.some.inj hset
        rw [paramsGet_delete_ne _ _ _ hky, paramsGet_set_ne _ _ _ _ hkx]
    · rw [setQueryParams, if_neg hx] at hset
      exact absurd hset (by simp)

theorem setQueryParams_frame_witness :
    setQueryParams [] [⟨"#fff", none⟩] [("q", "1")] = none ∧
    paramsGet ((setQueryParams [⟨"#fff", none⟩] [] [("q", "1")]).getD []) "q" =
      paramsGet [("q", "1")] "q" :=
  ⟨(setQueryParams_frame [] [⟨"#fff", none⟩] [("q", "1")]).1 rfl,
    (setQueryParams_frame [⟨"#fff", none⟩] [] [("q", "1")]).2 _ "q" rfl
      (by decide) (by decide)⟩

/-! ## Claim about reverseInputData (C10) -/

/-- C10: reversing is a no-op when the Y textarea holds no non-blank
text (both values are left unchanged), and otherwise swaps the X and Y
values wholesale. -/
theorem reverseInputData_spec (x y : String) :
    (jsTrim y = "" → reverseInputData x y = (x, y)) ∧
    (jsTrim y ≠ "" → reverseInputData x y = (y, x)) := by
  constructor
  · intro h
    rw [reverseInputData, if_pos (by rw [h]; rfl)]
  · intro h
    rw [reverseInputData, if_neg]
    intro hlen
    apply h
    have : (jsTrim y).data = [] := List.length_eq_zero.mp hlen
    exact congrArg String.mk this

theorem reverseInputData_spec_witness :
    reverseInputData "#fff" " \n " = ("#fff", " \n ") ∧
    reverseInputData "#fff" "#000" = ("#000", "#fff") :=
  ⟨(reverseInputData_spec "#fff" " \n ").1 rfl,
    (reverseInputData_spec "#fff" "#000").2 (by decide)⟩

/-! ## Claim about the matrix shape (C6) -/

/-- C6: for `x` of length `m` and `y` of length `n`, the grid has
exactly `n` data rows in Y order, each of exactly `m` cells in X order,
and the cell in row `i`, column `j` carries the ratio
`readability(x[j].color, y[i].color)`. -/
theorem buildDataRows_shape (readability : String → String → Rat)
    (x y : List ColorEntry) :
    (buildDataRows readability x y).length = y.length ∧
    (∀ (i : Nat) (row : List Rat),
      (buildDataRows readability x y)[i]? = some row → row.length = x.length) ∧
    (∀ (i j : Nat) (cx cy : ColorEntry), x[j]? = some cx → y[i]? = some cy →
      ((buildDataRows readability x y)[i]?).bind (fun row => row[j]?) =
        some (readability cx.color cy.color)) := by
  refine ⟨by simp [buildDataRows], ?_, ?_⟩
  · intro i row h
    rw [buildDataRows, List.getElem?_map] at h
    obtain ⟨cy, _, rfl⟩ := Option.map_eq_some'.mp h
    simp [buildTableTds]
  · intro i j cx cy hx hy
    rw [buildDataRows, List.getElem?_map, hy, Option.map_some']
    show (buildTableTds readability x cy.color)[j]? = _
    rw [buildTableTds, List.getElem?_map, hx, Option.map_some']

theorem buildDataRows_shape_witness :
    (buildDataRows (fun a b => ((a.length : Rat) + b.length))
        [⟨"#f00", none⟩, ⟨"#0f0", none⟩] [⟨"#00f", none⟩]).length = 1 ∧
    ((buildDataRows (fun a b => ((a.length : Rat) + b.length))
        [⟨"#f00", none⟩, ⟨"#0f0", none⟩] [⟨"#00f", none⟩])[0]?).bind
      (fun row => row[1]?) = some (((("#0f0" : String).length : Rat) + ("#00f" : String).length)) :=
  ⟨(buildDataRows_shape _ _ _).1,
    (buildDataRows_shape _ _ _).2.2 0 1 ⟨"#0f0", none⟩ ⟨"#00f", none⟩ rfl rfl⟩

/-! ## InputParser lemmas -/

theorem foldl_push_filterMap {α β : Type} (f : α → Option β) (l : List α) (acc : List β) :
    l.foldl (fun a x => a ++ (f x).toList) acc = acc ++ l.filterMap f := by
  induction l generalizing acc with
  | nil => simp
  | cons x rest ih =>
    cases hf : f x <;> simp [List.foldl_cons, hf, ih, List.filterMap_cons]

theorem getInputData_eq_filterMap (valid : String → Bool) (s : String) :
    getInputData valid s = (jsSplit '\n' s).filterMap (processLine valid) := by
  rw [getInputData]
  exact (foldl_push_filterMap (processLine valid) (jsSplit '\n' s) []).trans
    (List.nil_append _)

theorem splitOnChar_ne_nil (sep : Char) (l : List Char) : splitOnChar sep l ≠ [] := by
  cases l with
  | nil => simp [splitOnChar]
  | cons c rest =>
    rw [splitOnChar]
    split
    · simp
    · split <;> simp

theorem processSegment_color (valid : String → Bool) (st : SegState) (rawItem : String) :
    (processSegment valid st rawItem).lineHasValidColor =
      valid (cleanSegment rawItem) := by
  rw [processSegment]
  by_cases hv : valid (cleanSegment rawItem)
  · simp [hv]
  · by_cases hl : (cleanSegment rawItem).length ≠ 0 <;> simp [hv, hl]

theorem processSegment_isSome (valid : String → Bool) (st : SegState) (rawItem : String)
    (h : valid (cleanSegment rawItem) = true) :
    (processSegment valid st rawItem).color.isSome := by
  rw [processSegment]
  simp [h]

theorem processLine_isSome (valid : String → Bool) (line : String) :
    (processLine valid line).isSome = valid (cleanSegment (lastProcessedSegment line)) := by
  rw [processLine, lastProcessedSegment]
  rcases hsplit : jsSplit ':' line with _ | ⟨a, _ | ⟨b, rest⟩⟩
  · exact absurd (congrArg List.length hsplit)
      (by simp [jsSplit, splitOnChar_ne_nil ':' line.data])
  · simp only [List.take, List.foldl]
    by_cases hv : valid (cleanSegment a)
    · simp [processSegment_color, hv, processSegment_isSome _ _ _ hv]
    · simp [processSegment_color, hv]
  · simp only [List.take, List.foldl]
    by_cases hv : valid (cleanSegment b)
    · simp [processSegment_color, hv,
        processSegment_isSome _ (processSegment valid ⟨none, none, false⟩ a) _ hv]
    · simp [processSegment_color, hv]

theorem dropWhile_cons_head {p : Char → Bool} :
    ∀ (l : List Char) (c : Char) (t : List Char),
      l.dropWhile p = c :: t → p c = false := by
  intro l
  induction l with
  | nil => intro c t h; cases h
  | cons x xs ih =>
    intro c t h
    rw [List.dropWhile_cons] at h
    by_cases hp : p x
    · rw [if_pos hp] at h
      exact ih c t h
    · rw [if_neg hp] at h
      obtain ⟨rfl, -⟩ := List.cons.injEq .. ▸ h
      exact Bool.of_not_eq_true hp

theorem trimList_all_ws {X : List Char} (h : ∀ c ∈ trimList X, jsWsChar c = true) :
    trimList X = [] := by
  rcases hd : (X.dropWhile jsWsChar).reverse.dropWhile jsWsChar with _ | ⟨c, t⟩
  · rw [trimList, hd]; rfl
  · have hc : jsWsChar c = false := dropWhile_cons_head _ c t hd
    have hmem : c ∈ trimList X := by
      rw [trimList, hd]
      exact List.mem_reverse.mpr (List.mem_cons_self c t)
    exact absurd (h c hmem) (by rw [hc]; decide)

theorem trimList_trimList_ne_nil (X : List Char) (h : trimList X ≠ []) :
    trimList (trimList X) ≠ [] := by
  intro hcontra
  apply h
  apply trimList_all_ws
  intro c hc
  by_cases hnil : (trimList X).dropWhile jsWsChar = []
  · exact List.dropWhile_eq_nil_iff.mp hnil c hc
  · exfalso
    rcases hd : (trimList X).dropWhile jsWsChar with _ | ⟨d, t⟩
    · exact hnil hd
    · have hdws : jsWsChar d = false := dropWhile_cons_head _ d t hd
      have hsplit : d ∈ ((trimList X).dropWhile jsWsChar).reverse.dropWhile jsWsChar ∨
          jsWsChar d = true := by
        have heq := List.takeWhile_append_dropWhile (p := jsWsChar)
          (l := ((trimList X).dropWhile jsWsChar).reverse)
        have hdmem : d ∈ ((trimList X).dropWhile jsWsChar).reverse := by
          rw [hd]; exact List.mem_reverse.mpr (List.mem_cons_self d t)
        rw [← heq] at hdmem
        rcases List.mem_append.mp hdmem with hmem | hmem
        · exact Or.inr (List.mem_takeWhile_imp hmem)
        · exact Or.inl hmem
      rcases hsplit with hmem | hws
      · rw [trimList, List.reverse_eq_nil_iff] at hcontra
        rw [hcontra] at hmem
        cases hmem
      · rw [hdws] at hws; cases hws

theorem string_eq_empty_iff (s : String) : s = "" ↔ s.data = [] := by
  constructor
  · rintro rfl; rfl
  · intro h; cases s; exact congrArg String.mk h

theorem processSegment_cases (valid : String → Bool) (st : SegState) (raw : String) :
    (valid (cleanSegment raw) = true ∧
      processSegment valid st raw = ⟨some (cleanSegment raw), st.name, true⟩) ∨
    (valid (cleanSegment raw) = false ∧ (cleanSegment raw).length ≠ 0 ∧
      processSegment valid st raw = ⟨st.color, some (cleanSegment raw), false⟩) ∨
    (valid (cleanSegment raw) = false ∧
      processSegment valid st raw = ⟨st.color, st.name, false⟩) := by
  cases hv : valid (cleanSegment raw)
  · by_cases hl : (cleanSegment raw).length ≠ 0
    · exact Or.inr (Or.inl ⟨rfl, hl, by rw [processSegment]; simp [hv, hl]⟩)
    · exact Or.inr (Or.inr ⟨rfl, by rw [processSegment]; simp [hv, hl]⟩)
  · exact Or.inl ⟨rfl, by rw [processSegment]; simp [hv]⟩

theorem processLine_entry (valid : String → Bool) (line : String) (e : ColorEntry)
    (h : processLine valid line = some e) :
    valid e.color = true ∧
    (∀ n, e.name = some n → n ≠ "" ∧ ∃ t, n = cleanSegment t) := by
  rw [processLine] at h
  rcases hsplit : jsSplit ':' line with _ | ⟨a, _ | ⟨b, rest⟩⟩ <;> rw [hsplit] at h
  · exact absurd (congrArg List.length hsplit)
      (by simp [jsSplit, splitOnChar_ne_nil ':' line.data])
  · simp only [List.take, List.foldl] at h
    rcases processSegment_cases valid ⟨none, none, false⟩ a with
      ⟨hva, hst⟩ | ⟨hva, hla, hst⟩ | ⟨hva, hst⟩ <;> rw [hst] at h
    · simp only [Option.isSome_some, Bool.true_or, Bool.and_self, if_true,
        Option.map_some', Option.some.injEq] at h
      subst h
      exact ⟨hva, by rintro n ⟨⟩⟩
    · simp at h
    · simp at h
  · simp only [List.take, List.foldl] at h
    rcases processSegment_cases valid ⟨none, none, false⟩ a with
      ⟨hva, hst1⟩ | ⟨hva, hla, hst1⟩ | ⟨hva, hst1⟩ <;> rw [hst1] at h
    · rcases processSegment_cases valid ⟨some (cleanSegment a), none, true⟩ b with
        ⟨hvb, hst2⟩ | ⟨hvb, hlb, hst2⟩ | ⟨hvb, hst2⟩ <;> rw [hst2] at h
      · simp only [Option.isSome_some, Bool.true_or, Bool.and_self, if_true,
          Option.map_some', Option.some.injEq] at h
        subst h
        exact ⟨hvb, by rintro n ⟨⟩⟩
      · simp at h
      · simp at h
    · rcases processSegment_cases valid ⟨none, some (cleanSegment a), false⟩ b with
        ⟨hvb, hst2⟩ | ⟨hvb, hlb, hst2⟩ | ⟨hvb, hst2⟩ <;> rw [hst2] at h
      · simp only [Option.isSome_some, Bool.true_or, Bool.or_true, Bool.and_self, if_true,
          Option.map_some', Option.some.injEq] at h
        subst h
        refine ⟨hvb, ?_⟩
        intro n hn
        simp only at hn
        obtain rfl := Option.some.inj hn
        refine ⟨?_, a, rfl⟩
        intro hempty
        apply hla
        rw [hempty]
        rfl
      · simp at h
      · simp at h
    · rcases processSegment_cases valid ⟨none, none, false⟩ b with
        ⟨hvb, hst2⟩ | ⟨hvb, hlb, hst2⟩ | ⟨hvb, hst2⟩ <;> rw [hst2] at h
      · simp only [Option.isSome_some, Bool.true_or, Bool.and_self, if_true,
          Option.map_some', Option.some.injEq] at h
        subst h
        exact ⟨hvb, by rintro n ⟨⟩⟩
      · simp at h
      · simp at h

/-! ## Claims about getInputData (C3, C5, C8) -/

/-- C3: parse emits an entry for a line exactly when the cleanup of the
last processed segment (the second `:`-delimited segment if present,
else the first; later segments are ignored) is a valid color; parsing
works line by line, and in particular a line pairing a non-color name
with a non-color second segment, such as `notacolor: alsonotacolor`,
yields no entry. -/
theorem getInputData_line_acceptance (valid : String → Bool) (text : String) :
    getInputData valid text = (jsSplit '\n' text).filterMap (processLine valid) ∧
    (∀ line, (processLine valid line).isSome =
      valid (cleanSegment (lastProcessedSegment line))) ∧
    getInputData hexValid "notacolor: alsonotacolor" = [] :=
  ⟨getInputData_eq_filterMap valid text,
    fun line => processLine_isSome valid line, by decide⟩

/-- C5 (amended): parse processes the split lines independently and in
order — the output is the in-order concatenation of each line's entry —
but it does not de-duplicate: repeated lines yield repeated, equal
entries, as the duplicated `#fff` input shows. -/
theorem getInputData_order_no_dedup (valid : String → Bool) (s : String) :
    getInputData valid s = (jsSplit '\n' s).filterMap (processLine valid) ∧
    getInputData hexValid "#fff\n#fff" = [⟨"#fff", none⟩, ⟨"#fff", none⟩] :=
  ⟨getInputData_eq_filterMap valid s, by decide⟩

/-- C5 as stated is false on the code: the parse output of the two-line
input `#fff\n#fff` contains two equal entries, so it is not
de-duplicated. -/
theorem getInputData_dedup_counterexample :
    ¬ (getInputData hexValid "#fff\n#fff").Nodup := by decide

/-- C8: every entry parse returns carries a color accepted by the
validity collaborator, and its optional name, when present, is
non-empty even after trimming. -/
theorem getInputData_entry_invariant (valid : String → Bool) (s : String)
    (e : ColorEntry) (h : e ∈ getInputData valid s) :
    valid e.color = true ∧ ∀ n, e.name = some n → jsTrim n ≠ "" := by
  rw [getInputData_eq_filterMap] at h
  obtain ⟨line, -, hline⟩ := List.mem_filterMap.mp h
  obtain ⟨hv, hn⟩ := processLine_entry valid line e hline
  refine ⟨hv, fun n hne => ?_⟩
  obtain ⟨hne', t, ht⟩ := hn n hne
  intro hcontra
  have hdata : n.data ≠ [] := by
    intro hd
    exact hne' ((string_eq_empty_iff n).mpr hd)
  have hnd : n.data = trimList (stripTrailingComma (trimList (dropSemi t.data))) := by
    rw [ht]; rfl
  have : trimList n.data = [] := by
    have := congrArg String.data hcontra
    simpa [jsTrim] using this
  rw [hnd] at this hdata
  exact trimList_trimList_ne_nil _ hdata this

theorem getInputData_entry_invariant_witness :
    hexValid "#fff" = true ∧
    (∀ n, (⟨"#fff", some "Red"⟩ : ColorEntry).name = some n → jsTrim n ≠ "") :=
  getInputData_entry_invariant hexValid "Red: #fff" ⟨"#fff", some "Red"⟩ (by decide)

/-! ## Percent-encoding round-trip -/

theorem char_toNat_valid (c : Char) :
    c.toNat < 0xd800 ∨ (0xe000 ≤ c.toNat ∧ c.toNat < 0x110000) := c.valid

theorem hexVal_hexDigitUpper (k : Nat) (hk : k < 16) :
    hexVal (hexDigitUpper k) = some k := by
  interval_cases k <;> rfl

theorem pctDecode_pctByte (b : Nat) (hb : b < 256) (rest : List Char) :
    pctDecode (pctByte b ++ rest) = (pctDecode rest).map (Sum.inr b :: ·) := by
  rw [pctByte]
  show pctDecode ('%' :: hexDigitUpper (b / 16) :: hexDigitUpper (b % 16) :: rest) = _
  rw [pctDecode, hexVal_hexDigitUpper (b / 16) (by omega),
    hexVal_hexDigitUpper (b % 16) (by omega)]
  show (pctDecode rest).map (Sum.inr (b / 16 * 16 + b % 16) :: ·) = _
  have : b / 16 * 16 + b % 16 = b := by omega
  rw [this]

theorem pctDecode_not_pct (c : Char) (hc : ¬ c = '%') (rest : List Char) :
    pctDecode (c :: rest) = (pctDecode rest).map (Sum.inl c :: ·) := by
  rcases rest with _ | ⟨c1, _ | ⟨c2, rest2⟩⟩ <;>
    · rw [pctDecode.eq_def]
      simp [hc]

theorem pctDecode_encChar (c : Char) (rest : List Char) :
    pctDecode (encURIChar c ++ rest) =
      (pctDecode rest).map
        ((if uriUnreserved c then [Sum.inl c] else (utf8Bytes c).map Sum.inr) ++ ·) := by
  by_cases hu : uriUnreserved c
  · rw [encURIChar, if_pos hu, if_pos hu]
    have hc : ¬ c = '%' := by
      intro hcc
      rw [hcc] at hu
      exact absurd hu (by decide)
    rw [List.cons_append, List.nil_append, pctDecode_not_pct c hc rest]
    rfl
  · rw [encURIChar, if_neg hu, if_neg hu]
    have hv := char_toNat_valid c
    by_cases h1 : c.toNat < 0x80
    · rw [utf8Bytes, if_pos h1]
      simp only [List.flatMap_cons, List.flatMap_nil, List.append_nil, List.append_assoc,
        List.map_cons, List.map_nil]
      rw [pctDecode_pctByte _ (by omega)]
      rfl
    · by_cases h2 : c.toNat < 0x800
      · rw [utf8Bytes, if_neg h1, if_pos h2]
        simp only [List.flatMap_cons, List.flatMap_nil, List.append_nil, List.append_assoc,
          List.map_cons, List.map_nil]
        rw [pctDecode_pctByte _ (by omega), pctDecode_pctByte _ (by omega), Option.map_map]
        rfl
      · by_cases h3 : c.toNat < 0x10000
        · rw [utf8Bytes, if_neg h1, if_neg h2, if_pos h3]
          simp only [List.flatMap_cons, List.flatMap_nil, List.append_nil, List.append_assoc,
            List.map_cons, List.map_nil]
          rw [pctDecode_pctByte _ (by omega), pctDecode_pctByte _ (by omega),
            pctDecode_pctByte _ (by omega), Option.map_map, Option.map_map]
          rfl
        · rw [utf8Bytes, if_neg h1, if_neg h2, if_neg h3]
          simp only [List.flatMap_cons, List.flatMap_nil, List.append_nil, List.append_assoc,
            List.map_cons, List.map_nil]
          rw [pctDecode_pctByte _ (by omega), pctDecode_pctByte _ (by omega),
            pctDecode_pctByte _ (by omega), pctDecode_pctByte _ (by rcases hv with hv | ⟨hv1, hv2⟩ <;> omega),
            Option.map_map, Option.map_map, Option.map_map]
          rfl

theorem utf8Assemble_encChar (c : Char) (rest : List (Char ⊕ Nat)) :
    utf8Assemble ((if uriUnreserved c then [Sum.inl c]
        else (utf8Bytes c).map Sum.inr) ++ rest) =
      (utf8Assemble rest).map (c :: ·) := by
  have hv := char_toNat_valid c
  by_cases hu : uriUnreserved c
  · rw [if_pos hu, List.cons_append, List.nil_append, utf8Assemble.eq_def]
  · rw [if_neg hu]
    by_cases h1 : c.toNat < 0x80
    · rw [utf8Bytes, if_pos h1]
      simp only [List.map_cons, List.map_nil, List.cons_append, List.nil_append]
      rw [utf8Assemble.eq_def]
      simp only
      rw [if_pos h1, Char.ofNat_toNat]
    · by_cases h2 : c.toNat < 0x800
      · rw [utf8Bytes, if_neg h1, if_pos h2]
        simp only [List.map_cons, List.map_nil, List.cons_append, List.nil_append]
        rw [utf8Assemble.eq_def]
        simp only
        rw [if_neg (by omega)]
        rw [if_neg (by omega)]
        rw [if_pos (by omega), utf8Two]
        rw [if_pos (by simp only [Bool.and_eq_true, decide_eq_true_eq]; omega)]
        have harg : (0xC0 + c.toNat / 64 - 0xC0) * 64 + (0x80 + c.toNat % 64 - 0x80) =
            c.toNat := by omega
        rw [harg, Char.ofNat_toNat]
      · by_cases h3 : c.toNat < 0x10000
        · rw [utf8Bytes, if_neg h1, if_neg h2, if_pos h3]
          simp only [List.map_cons, List.map_nil, List.cons_append, List.nil_append]
          rw [utf8Assemble.eq_def]
          simp only
          rw [if_neg (by omega)]
          rw [if_neg (by omega), if_neg (by omega)]
          rw [if_pos (by omega), utf8Three]
          rw [if_pos (by simp only [Bool.and_eq_true, decide_eq_true_eq]; omega)]
          dsimp only
          rw [if_pos (by
            simp only [Bool.and_eq_true, Bool.or_eq_true, decide_eq_true_eq]
            rcases hv with hv | ⟨hv1, hv2⟩ <;> omega)]
          have harg : (0xE0 + c.toNat / 4096 - 0xE0) * 4096 +
              (0x80 + c.toNat / 64 % 64 - 0x80) * 64 + (0x80 + c.toNat % 64 - 0x80) =
              c.toNat := by omega
          rw [harg, Char.ofNat_toNat]
        · rw [utf8Bytes, if_neg h1, if_neg h2, if_neg h3]
          simp only [List.map_cons, List.map_nil, List.cons_append, List.nil_append]
          rw [utf8Assemble.eq_def]
          simp only
          rw [if_neg (by omega), if_neg (by omega), if_neg (by omega), if_neg (by omega),
            if_pos (by rcases hv with hv | ⟨hv1, hv2⟩ <;> omega)]
          rw [utf8Four, if_pos (by simp only [Bool.and_eq_true, decide_eq_true_eq]; omega)]
          dsimp only
          rw [if_pos (by
            simp only [Bool.and_eq_true, decide_eq_true_eq]
            rcases hv with hv | ⟨hv1, hv2⟩ <;> omega)]
          have harg : (0xF0 + c.toNat / 262144 - 0xF0) * 262144 +
              (0x80 + c.toNat / 4096 % 64 - 0x80) * 4096 +
              (0x80 + c.toNat / 64 % 64 - 0x80) * 64 + (0x80 + c.toNat % 64 - 0x80) =
              c.toNat := by omega
          rw [harg, Char.ofNat_toNat]

theorem decode_encode_sums (cs : List Char) :
    (pctDecode (cs.flatMap encURIChar)).bind utf8Assemble = some cs := by
  induction cs with
  | nil => rfl
  | cons c rest ih =>
    rw [List.flatMap_cons, pctDecode_encChar]
    cases hp : pctDecode (rest.flatMap encURIChar) with
    | none => rw [hp] at ih; cases ih
    | some bs =>
      rw [hp] at ih
      rw [Option.map_some', Option.some_bind, utf8Assemble_encChar]
      rw [Option.some_bind] at ih
      rw [ih]
      rfl

theorem decodeURIComponent_encodeURIComponent (s : String) :
    decodeURIComponent (encodeURIComponent s) = some s := by
  have h := decode_encode_sums s.data
  rw [decodeURIComponent, encodeURIComponent]
  show (pctDecode (s.data.flatMap encURIChar)).bind
    (fun bs => (utf8Assemble bs).map (fun cs => (⟨cs⟩ : String))) = some s
  cases hp : pctDecode (s.data.flatMap encURIChar) with
  | none => rw [hp] at h; cases h
  | some bs =>
    rw [hp, Option.some_bind] at h
    rw [Option.some_bind, h]
    rfl

/-! ## JSON parser round-trip on stringified entry arrays -/

theorem skipWs_not (c : Char) (l : List Char) (h : jsonWs c = false) :
    skipWs (c :: l) = c :: l := by
  rw [skipWs, List.dropWhile_cons, h]
  simp

theorem hexVal_hexDigitLower (k : Nat) (hk : k < 16) :
    hexVal (hexDigitLower k) = some k := by
  interval_cases k <;> rfl

theorem parseStr_escape (cs : List Char) (rest : List Char) :
    parseStr (cs.flatMap jsonEscapeChar ++ '"' :: rest) = some (cs, rest) := by
  induction cs with
  | nil =>
    rw [List.flatMap_nil, List.nil_append, parseStr, if_pos rfl]
  | cons c cs ih =>
    rw [List.flatMap_cons, List.append_assoc]
    by_cases h1 : c = '"'
    · subst h1
      rw [show jsonEscapeChar '"' = ['\\', '"'] from rfl, List.cons_append,
        List.cons_append, List.nil_append, parseStr]
      simp only [if_true, if_false]
      rw [parseStrEsc]
      simp only [jsonUnescape, if_true, if_false]
      rw [ih]
      rfl
    · by_cases h2 : c = '\\'
      · subst h2
        rw [show jsonEscapeChar '\\' = ['\\', '\\'] from rfl, List.cons_append,
          List.cons_append, List.nil_append, parseStr]
        simp only [if_true, if_false]
        rw [parseStrEsc]
        simp only [jsonUnescape, if_true, if_false]
        rw [ih]
        rfl
      · by_cases h3 : c = '\u0008'
        · subst h3
          rw [show jsonEscapeChar '\u0008' = ['\\', 'b'] from rfl, List.cons_append,
            List.cons_append, List.nil_append, parseStr]
          simp only [if_true, if_false]
          rw [parseStrEsc]
          simp only [jsonUnescape, if_true, if_false]
          rw [ih]
          rfl
        · by_cases h4 : c = '\t'
          · subst h4
            rw [show jsonEscapeChar '\t' = ['\\', 't'] from rfl, List.cons_append,
              List.cons_append, List.nil_append, parseStr]
            simp only [if_true, if_false]
            rw [parseStrEsc]
            simp only [jsonUnescape, if_true, if_false]
            rw [ih]
            rfl
          · by_cases h5 : c = '\n'
            · subst h5
              rw [show jsonEscapeChar '\n' = ['\\', 'n'] from rfl, List.cons_append,
                List.cons_append, List.nil_append, parseStr]
              simp only [if_true, if_false]
              rw [parseStrEsc]
              simp only [jsonUnescape, if_true, if_false]
              rw [ih]
              rfl
            · by_cases h6 : c = '\u000c'
              · subst h6
                rw [show jsonEscapeChar '\u000c' = ['\\', 'f'] from rfl, List.cons_append,
                  List.cons_append, List.nil_append, parseStr]
                simp only [if_true, if_false]
                rw [parseStrEsc]
                simp only [jsonUnescape, if_true, if_false]
                rw [ih]
                rfl
              · by_cases h7 : c = '\r'
                · subst h7
                  rw [show jsonEscapeChar '\r' = ['\\', 'r'] from rfl, List.cons_append,
                    List.cons_append, List.nil_append, parseStr]
                  simp only [if_true, if_false]
                  rw [parseStrEsc]
                  simp only [jsonUnescape, if_true, if_false]
                  rw [ih]
                  rfl
                · by_cases h8 : c.toNat < 32
                  · rw [jsonEscapeChar, if_neg h1, if_neg h2, if_neg h3, if_neg h4,
                      if_neg h5, if_neg h6, if_neg h7, if_pos h8, List.cons_append,
                      List.cons_append, List.cons_append, List.cons_append,
                      List.cons_append, List.cons_append, List.nil_append, parseStr]
                    simp only [if_true, if_false]
                    rw [parseStrEsc]
                    simp only [if_true, if_false]
                    rw [parseStrU, show hexVal '0' = some 0 from rfl,
                      hexVal_hexDigitLower _ (by omega),
                      hexVal_hexDigitLower _ (by omega)]
                    simp only
                    have hn : ((0 * 16 + 0) * 16 + c.toNat / 16) * 16 + c.toNat % 16 =
                        c.toNat := by omega
                    rw [hn, if_pos (Or.inl (by omega)), ih, Char.ofNat_toNat]
                    rfl
                  · rw [jsonEscapeChar, if_neg h1, if_neg h2, if_neg h3, if_neg h4,
                      if_neg h5, if_neg h6, if_neg h7, if_neg h8, List.cons_append,
                      List.nil_append, parseStr, if_neg h1, if_neg h2, if_neg h8, ih]
                    rfl

theorem parseValue_qstr (f : Nat) (s : String) (rest : List Char) :
    parseValue (Nat.succ f) (qstrThen s rest) = some (Json.str s, rest) := by
  rw [qstrThen, parseValue, skipWs_not _ _ (by decide)]
  simp only [if_true, if_false]
  rw [jsonEscape, parseStr_escape]
  rfl

theorem parseMemberHead_qstr (s : String) (rest : List Char) :
    parseMemberHead (qstrThen s (':' :: rest)) = some (s, rest) := by
  rw [qstrThen, parseMemberHead, skipWs_not _ _ (by decide)]
  simp only
  rw [jsonEscape, parseStr_escape]
  simp only
  rw [skipWs_not _ _ (by decide)]
  rfl

theorem parseValue_strEntry (f : Nat) (e : ColorEntry) (rest : List Char) :
    parseValue (f + 4) (strEntryChars e rest) = some (entryToJson e, rest) := by
  obtain ⟨color, name⟩ := e
  cases name with
  | none =>
    rw [strEntryChars]
    simp only
    rw [show f + 4 = Nat.succ (f + 3) from rfl, parseValue, skipWs_not _ _ (by decide)]
    simp only
    rw [if_neg (by decide : ¬('{' = '"')), if_neg (by decide : ¬('{' = '[')),
      if_pos trivial]
    rw [qstrThen, skipWs_not _ _ (by decide)]
    split
    · next heq => simp at heq
    · rw [show f + 3 = Nat.succ (f + 2) from rfl, parseMembers,
        show ('"' :: (jsonEscape "color" ++ '"' :: (':' :: qstrThen color ('}' :: rest)))) =
          qstrThen "color" (':' :: qstrThen color ('}' :: rest)) from rfl,
        parseMemberHead_qstr]
      simp only
      rw [show f + 2 = Nat.succ (f + 1) from rfl, parseValue_qstr]
      simp only
      rw [skipWs_not _ _ (by decide)]
      rfl
  | some n =>
    rw [strEntryChars]
    simp only
    rw [show f + 4 = Nat.succ (f + 3) from rfl, parseValue, skipWs_not _ _ (by decide)]
    simp only
    rw [if_neg (by decide : ¬('{' = '"')), if_neg (by decide : ¬('{' = '[')),
      if_pos trivial]
    rw [qstrThen, skipWs_not _ _ (by decide)]
    split
    · next heq => simp at heq
    · rw [show f + 3 = Nat.succ (f + 2) from rfl, parseMembers,
        show ('"' :: (jsonEscape "name" ++ '"' :: (':' :: qstrThen n (',' ::
            qstrThen "color" (':' :: qstrThen color ('}' :: rest)))))) =
          qstrThen "name" (':' :: qstrThen n (',' ::
            qstrThen "color" (':' :: qstrThen color ('}' :: rest)))) from rfl,
        parseMemberHead_qstr]
      simp only
      rw [show f + 2 = Nat.succ (f + 1) from rfl, parseValue_qstr]
      simp only
      rw [skipWs_not _ _ (by decide)]
      split
      · next r4 heq =>
        obtain rfl := (List.cons.inj heq).2
        rw [parseMembers, parseMemberHead_qstr]
        simp only
        rw [show f + 1 = Nat.succ f from rfl, parseValue_qstr]
        simp only
        rw [skipWs_not _ _ (by decide)]
        rfl
      · next r4 heq => simp at heq
      · next h1 h2 =>
        exact absurd rfl (h1 (qstrThen "color" (':' :: qstrThen color ('}' :: rest))))

theorem parseElems_strEntries (es : List ColorEntry) :
    ∀ (e : ColorEntry) (f : Nat) (rest : List Char), 6 * es.length + 6 ≤ f →
      parseElems f (strEntryChars e (strEntriesAux es rest)) =
        some ((e :: es).map entryToJson, rest) := by
  induction es with
  | nil =>
    intro e f rest hf
    obtain ⟨g, rfl⟩ : ∃ g, f = g + 5 := ⟨f - 5, by omega⟩
    rw [show g + 5 = Nat.succ (g + 4) from rfl, parseElems, parseValue_strEntry]
    simp only
    rw [strEntriesAux, skipWs_not _ _ (by decide)]
    rfl
  | cons e2 es ih =>
    intro e f rest hf
    obtain ⟨g, rfl⟩ : ∃ g, f = g + 5 := ⟨f - 5, by omega⟩
    rw [show g + 5 = Nat.succ (g + 4) from rfl, parseElems, parseValue_strEntry]
    simp only
    rw [strEntriesAux, skipWs_not _ _ (by decide)]
    split
    · next r2 heq =>
      obtain rfl := (List.cons.inj heq).2
      rw [ih e2 (g + 4) rest (by simp at hf ⊢; omega)]
      rfl
    · next r2 heq => simp at heq
    · next h1 h2 => exact absurd rfl (h1 _)

theorem parseValue_strEntries (l : List ColorEntry) (f : Nat) (rest : List Char)
    (hf : 6 * l.length + 7 ≤ f) :
    parseValue f (strEntriesChars l rest) = some (entriesToJson l, rest) := by
  obtain ⟨g, rfl⟩ : ∃ g, f = Nat.succ g := ⟨f - 1, by omega⟩
  cases l with
  | nil =>
    rw [strEntriesChars, parseValue, skipWs_not _ _ (by decide)]
    simp only
    rw [if_neg (by decide : ¬('[' = '"')), if_pos trivial, skipWs_not _ _ (by decide)]
    rfl
  | cons e es =>
    rw [strEntriesChars, parseValue, skipWs_not _ _ (by decide)]
    simp only
    rw [if_neg (by decide : ¬('[' = '"')), if_pos trivial]
    obtain ⟨t, ht⟩ : ∃ t, strEntryChars e (strEntriesAux es rest) = '{' :: t := by
      obtain ⟨color, name⟩ := e
      cases name <;> exact ⟨_, rfl⟩
    rw [ht, skipWs_not _ _ (by decide)]
    split
    · next heq => simp at heq
    · rw [← ht, parseElems_strEntries es e g rest (by simp at hf ⊢; omega)]
      rfl

theorem strEntryChars_length (e : ColorEntry) (rest : List Char) :
    rest.length + 12 ≤ (strEntryChars e rest).length := by
  obtain ⟨c, name⟩ := e
  cases name with
  | none =>
    rw [strEntryChars]
    simp only [qstrThen, List.length_cons, List.length_append]
    rw [show (jsonEscape "color").length = 5 from rfl]
    omega
  | some n =>
    rw [strEntryChars]
    simp only [qstrThen, List.length_cons, List.length_append]
    rw [show (jsonEscape "color").length = 5 from rfl,
      show (jsonEscape "name").length = 4 from rfl]
    omega

theorem strEntriesAux_length (es : List ColorEntry) (rest : List Char) :
    6 * es.length ≤ (strEntriesAux es rest).length := by
  induction es generalizing rest with
  | nil => simp [strEntriesAux]
  | cons e es ih =>
    rw [strEntriesAux]
    have h1 := strEntryChars_length e (strEntriesAux es rest)
    have h2 := ih rest
    simp only [List.length_cons]
    simp only [List.length_cons] at h1
    omega

theorem strEntriesChars_length (l : List ColorEntry) (rest : List Char) :
    6 * l.length ≤ (strEntriesChars l rest).length := by
  cases l with
  | nil => simp [strEntriesChars]
  | cons e es =>
    rw [strEntriesChars]
    have h1 := strEntryChars_length e (strEntriesAux es rest)
    have h2 := strEntriesAux_length es rest
    simp only [List.length_cons]
    omega

theorem jsonParse_stringifyEntries (l : List ColorEntry) :
    jsonParse (stringifyEntries l) = some (entriesToJson l) := by
  rw [jsonParse, stringifyEntries]
  rw [show (String.mk (strEntriesChars l [])).data = strEntriesChars l [] from rfl]
  have hlen : 6 * l.length + 7 ≤ (strEntriesChars l []).length + 8 := by
    have := strEntriesChars_length l []
    omega
  rw [parseValue_strEntries l _ [] hlen]
  rfl

theorem entryOfJson_toJson (e : ColorEntry) : entryOfJson (entryToJson e) = some e := by
  obtain ⟨c, name⟩ := e
  cases name <;> rfl

theorem entriesOfJson_toJson (l : List ColorEntry) :
    entriesOfJson (entriesToJson l) = some l := by
  rw [entriesToJson, entriesOfJson]
  induction l with
  | nil => rfl
  | cons e es ih =>
    rw [List.map_cons, List.mapM_cons, entryOfJson_toJson e]
    simp only [Option.pure_def, Option.bind_eq_bind, Option.some_bind] at ih ⊢
    rw [ih]
    rfl

theorem stringifyEntries_inj (x y : List ColorEntry)
    (h : stringifyEntries x = stringifyEntries y) : x = y := by
  have hx := jsonParse_stringifyEntries x
  rw [h, jsonParse_stringifyEntries y, Option.some.injEq] at hx
  have := congrArg entriesOfJson hx
  rw [entriesOfJson_toJson, entriesOfJson_toJson, Option.some.injEq] at this
  exact this.symm

/-! ## Claim C1: codec round-trip -/

theorem jsTruthy_entriesToJson (l : List ColorEntry) :
    jsTruthy (entriesToJson l) = true := by
  rw [entriesToJson, jsTruthy]

theorem decodeStateEntries_of_gets (q : QueryParams) (x y : List ColorEntry)
    (hgx : paramsGet q "xAxisData" = some (encodeURIComponent (stringifyEntries x)))
    (hgy : paramsGet q "yAxisData" = some (encodeURIComponent (stringifyEntries y))) :
    decodeStateEntries q = some (x, y) := by
  rw [decodeStateEntries, handlePopstateAxes, getDataFromQueryParams, decodeAxis,
    decodeAxis, hgx, hgy]
  simp only [strOfNullable]
  rw [decodeURIComponent_encodeURIComponent, decodeURIComponent_encodeURIComponent]
  simp only [Option.some_bind]
  rw [jsonParse_stringifyEntries, jsonParse_stringifyEntries]
  simp only [Option.some_bind, Option.map_some']
  rw [jsTruthy_entriesToJson, if_pos rfl]
  rw [entriesOfJson_toJson]
  simp only [Option.some_bind]
  rw [entriesOfJson_toJson]
  rfl

theorem decodeStateEntries_of_gets_noY (q : QueryParams) (x : List ColorEntry)
    (hgx : paramsGet q "xAxisData" = some (encodeURIComponent (stringifyEntries x)))
    (hgy : paramsGet q "yAxisData" = none) :
    decodeStateEntries q = some (x, x) := by
  rw [decodeStateEntries, handlePopstateAxes, getDataFromQueryParams, decodeAxis,
    decodeAxis, hgx, hgy]
  simp only [strOfNullable]
  rw [decodeURIComponent_encodeURIComponent,
    show decodeURIComponent "null" = some "null" from rfl]
  simp only [Option.some_bind]
  rw [jsonParse_stringifyEntries, show jsonParse "null" = some Json.null from rfl]
  simp only [Option.some_bind, Option.map_some']
  rw [show jsTruthy Json.null = false from rfl, if_neg (by decide)]
  rw [entriesOfJson_toJson]
  simp only [Option.some_bind]
  rfl

/-- C1: decoding (getDataFromQueryParams as consumed by handlePopstate)
the query string produced by encode (setQueryParams) recovers exactly
the encoded pair: `(x, y)` when the two axes serialize differently, and
`(x, x)` when they serialize equally (the deleted `yAxisData` parameter
decodes to `null`, and the Y axis is then reconstructed from X).  The
percent-encoding layer and the JSON layer each cancel exactly. -/
theorem setQueryParams_roundtrip (p : QueryParams) (x y : List ColorEntry)
    (hx : x ≠ []) :
    (setQueryParams x y p).bind decodeStateEntries = some (x, y) := by
  have hxlen : x.length ≠ 0 := fun h => hx (List.length_eq_zero.mp h)
  rw [setQueryParams, if_pos hxlen]
  by_cases hxy : stringifyEntries x ≠ stringifyEntries y
  · rw [if_pos hxy, Option.some_bind]
    exact decodeStateEntries_of_gets _ x y
      (by rw [paramsGet_set_ne _ _ _ _ (by decide), paramsGet_set_self])
      (paramsGet_set_self _ _ _)
  · have heq : x = y := stringifyEntries_inj x y (not_not.mp hxy)
    subst heq
    rw [if_neg hxy, Option.some_bind]
    exact decodeStateEntries_of_gets_noY _ x
      (by rw [paramsGet_delete_ne _ _ _ (by decide), paramsGet_set_self])
      (paramsGet_delete_self _ _)

theorem setQueryParams_roundtrip_witness :
    (setQueryParams [⟨"#fff", some "white"⟩] [] []).bind decodeStateEntries =
      some ([⟨"#fff", some "white"⟩], []) :=
  setQueryParams_roundtrip [] [⟨"#fff", some "white"⟩] [] (by decide)

/-! ## Claim C7: decode failure propagation -/

/-- C7: decode (getDataFromQueryParams) fails outright — no partial
recovery — whenever the `xAxisData` or `yAxisData` parameter is present
but `JSON.parse(decodeURIComponent(value))` throws (percent-decoding
error or invalid JSON); on a fully absent query string it does not
crash and yields the JavaScript `null` for both axes. -/
theorem getDataFromQueryParams_failure :
    (∀ (params : QueryParams) (axis v : String),
      (axis = "xAxisData" ∨ axis = "yAxisData") →
      paramsGet params axis = some v →
      (decodeURIComponent v).bind jsonParse = none →
      getDataFromQueryParams params = none) ∧
    getDataFromQueryParams [] = some (Json.null, Json.null) := by
  constructor
  · intro params axis v haxis hget hbad
    rcases haxis with rfl | rfl
    · have hdx : decodeAxis params "xAxisData" = none := by
        rw [decodeAxis, hget, strOfNullable, hbad]
      rw [getDataFromQueryParams, hdx]
      rfl
    · have hdy : decodeAxis params "yAxisData" = none := by
        rw [decodeAxis, hget, strOfNullable, hbad]
      cases hdx : decodeAxis params "xAxisData" with
      | none => rw [getDataFromQueryParams, hdx]; rfl
      | some jx => rw [getDataFromQueryParams, hdx, Option.some_bind, hdy]; rfl
  · rfl

theorem getDataFromQueryParams_failure_witness :
    getDataFromQueryParams [("xAxisData", "nope")] = none ∧
    getDataFromQueryParams [] = some (Json.null, Json.null) :=
  ⟨getDataFromQueryParams_failure.1 [("xAxisData", "nope")] "xAxisData" "nope"
    (Or.inl rfl) rfl rfl,
    getDataFromQueryParams_failure.2⟩

/-! ## Claim C4: toFixed(2) display vs threshold comparison -/

theorem digitChar_spec (k : Nat) (hk : k < 10) :
    (digitChar k).isDigit = true ∧ digitVal (digitChar k) = k ∧
      jsWsChar (digitChar k) = false := by
  interval_cases k <;> exact ⟨by decide, by decide, by decide⟩

theorem natDigitsF_spec (fuel : Nat) : ∀ n : Nat, n < fuel →
    (∀ c ∈ natDigitsF fuel n, ∃ k, k < 10 ∧ c = digitChar k) ∧
    digitsVal (natDigitsF fuel n) = n ∧ natDigitsF fuel n ≠ [] := by
  induction fuel with
  | zero => intro n h; exact absurd h (by omega)
  | succ f ih =>
    intro n hn
    rw [natDigitsF]
    by_cases h10 : n < 10
    · rw [if_pos h10]
      refine ⟨?_, ?_, by simp⟩
      · intro c hc
        rw [List.mem_singleton] at hc
        exact ⟨n, h10, hc⟩
      · show 0 * 10 + digitVal (digitChar n) = n
        rw [(digitChar_spec n h10).2.1]
        omega
    · rw [if_neg h10]
      have hlt : n / 10 < f := by omega
      obtain ⟨hmem, hval, hne⟩ := ih (n / 10) hlt
      refine ⟨?_, ?_, by simp⟩
      · intro c hc
        rcases List.mem_append.mp hc with hcl | hcr
        · exact hmem c hcl
        · rw [List.mem_singleton] at hcr
          exact ⟨n % 10, by omega, hcr⟩
      · rw [digitsVal, List.foldl_append]
        show digitsVal (natDigitsF f (n / 10)) * 10 + digitVal (digitChar (n % 10)) = n
        rw [hval, (digitChar_spec (n % 10) (by omega)).2.1]
        omega

theorem natDigits_spec (q : Nat) :
    (∀ c ∈ natDigits q, ∃ k, k < 10 ∧ c = digitChar k) ∧
    digitsVal (natDigits q) = q ∧ natDigits q ≠ [] := by
  rw [natDigits]
  exact natDigitsF_spec (q + 1) q (by omega)

theorem takeWhile_prefix_append {p : Char → Bool} :
    ∀ (xs ys : List Char), (∀ c ∈ xs, p c = true) →
      (∀ c t, ys = c :: t → p c = false) →
      (xs ++ ys).takeWhile p = xs ∧ (xs ++ ys).dropWhile p = ys := by
  intro xs
  induction xs with
  | nil =>
    intro ys _ hhead
    cases ys with
    | nil => exact ⟨rfl, rfl⟩
    | cons c t =>
      have hc := hhead c t rfl
      rw [List.nil_append]
      constructor
      · rw [List.takeWhile_cons, hc]; rfl
      · rw [List.dropWhile_cons, hc]; rfl
  | cons x xs ih =>
    intro ys hall hhead
    have hx : p x = true := hall x (List.mem_cons_self x xs)
    obtain ⟨h1, h2⟩ := ih ys (fun c hc => hall c (List.mem_cons_of_mem x hc)) hhead
    rw [List.cons_append]
    constructor
    · rw [List.takeWhile_cons, hx]
      simp [h1]
    · rw [List.dropWhile_cons, hx]
      simp [h2]

theorem natDigits_all_digits (q : Nat) : ∀ c ∈ natDigits q, c.isDigit = true := by
  intro c hc
  obtain ⟨k, hk, rfl⟩ := (natDigits_spec q).1 c hc
  exact (digitChar_spec k hk).1

theorem dropWhile_ws_natDigits (q : Nat) (tail : List Char) :
    (natDigits q ++ tail).dropWhile jsWsChar = natDigits q ++ tail := by
  rcases hd : natDigits q with _ | ⟨d, ds⟩
  · exact absurd hd (natDigits_spec q).2.2
  · obtain ⟨k, hk, rfl⟩ := (natDigits_spec q).1 d (by rw [hd]; exact List.mem_cons_self _ _)
    rw [List.cons_append, List.dropWhile_cons, (digitChar_spec k hk).2.2]
    rfl

theorem parseFloatSign_natDigits (q : Nat) (tail : List Char) :
    parseFloatSign (natDigits q ++ tail) = (1, natDigits q ++ tail) := by
  rcases hd : natDigits q with _ | ⟨d, ds⟩
  · exact absurd hd (natDigits_spec q).2.2
  · obtain ⟨k, hk, rfl⟩ := (natDigits_spec q).1 d (by rw [hd]; exact List.mem_cons_self _ _)
    rw [List.cons_append, parseFloatSign.eq_def]
    split
    · next heq => exact absurd (List.cons.inj heq).1 (by interval_cases k <;> decide)
    · next heq => exact absurd (List.cons.inj heq).1 (by interval_cases k <;> decide)
    · rfl

theorem parseFloatExp_newline (tail : List Char) :
    parseFloatExp ('\n' :: tail) = 0 := by
  rw [parseFloatExp.eq_def]
  split
  · next heq => exact absurd (List.cons.inj heq).1 (by decide)
  · next heq => exact absurd (List.cons.inj heq).1 (by decide)
  · rfl

theorem parseFloat_cellText (r : Rat) (h : 0 ≤ r) :
    parseFloat (cellText r) = some (round2 r) := by
  have hfl : (0:ℤ) ≤ ⌊r * 100 + 1 / 2⌋ := Int.floor_nonneg.mpr (by positivity)
  rw [parseFloat]
  have hdata : (cellText r).data =
      '\n' :: ' ' :: ' ' :: ' ' :: ' ' ::
        (natDigits ((⌊r * 100 + 1 / 2⌋).toNat / 100) ++
          ('.' :: (digitChar ((⌊r * 100 + 1 / 2⌋).toNat % 100 / 10) ::
            digitChar ((⌊r * 100 + 1 / 2⌋).toNat % 10) :: '\n' :: [' ', ' ']))) := by
    show ('\n' :: ' ' :: ' ' :: ' ' :: ' ' :: ((toFixed2 r).data ++ '\n' :: [' ', ' '])) = _
    rw [show (toFixed2 r).data = natDigits ((⌊r * 100 + 1 / 2⌋).toNat / 100) ++
      '.' :: [digitChar ((⌊r * 100 + 1 / 2⌋).toNat % 100 / 10),
        digitChar ((⌊r * 100 + 1 / 2⌋).toNat % 10)] from rfl]
    simp
  rw [hdata]
  have hdrop : ('\n' :: ' ' :: ' ' :: ' ' :: ' ' ::
      (natDigits ((⌊r * 100 + 1 / 2⌋).toNat / 100) ++
        ('.' :: (digitChar ((⌊r * 100 + 1 / 2⌋).toNat % 100 / 10) ::
          digitChar ((⌊r * 100 + 1 / 2⌋).toNat % 10) :: '\n' :: [' ', ' '])))).dropWhile
            jsWsChar =
      natDigits ((⌊r * 100 + 1 / 2⌋).toNat / 100) ++
        ('.' :: (digitChar ((⌊r * 100 + 1 / 2⌋).toNat % 100 / 10) ::
          digitChar ((⌊r * 100 + 1 / 2⌋).toNat % 10) :: '\n' :: [' ', ' '])) := by
    rw [List.dropWhile_cons, show jsWsChar '\n' = true from rfl]
    rw [if_pos rfl, List.dropWhile_cons, show jsWsChar ' ' = true from rfl]
    rw [if_pos rfl, List.dropWhile_cons, show jsWsChar ' ' = true from rfl]
    rw [if_pos rfl, List.dropWhile_cons, show jsWsChar ' ' = true from rfl]
    rw [if_pos rfl, List.dropWhile_cons, show jsWsChar ' ' = true from rfl]
    rw [if_pos rfl, dropWhile_ws_natDigits]
  rw [hdrop, parseFloatSign_natDigits]
  have hdot : ∀ c t, ('.' :: (digitChar ((⌊r * 100 + 1 / 2⌋).toNat % 100 / 10) ::
      digitChar ((⌊r * 100 + 1 / 2⌋).toNat % 10) :: '\n' :: [' ', ' '])) = c :: t →
      Char.isDigit c = false := by
    intro c t hct
    obtain rfl := (List.cons.inj hct).1
    decide
  have htd := takeWhile_prefix_append (p := Char.isDigit)
    (natDigits ((⌊r * 100 + 1 / 2⌋).toNat / 100))
    ('.' :: (digitChar ((⌊r * 100 + 1 / 2⌋).toNat % 100 / 10) ::
      digitChar ((⌊r * 100 + 1 / 2⌋).toNat % 10) :: '\n' :: [' ', ' ']))
    (natDigits_all_digits _) hdot
  rw [htd.1, htd.2, parseFloatFrac]
  have hfr := takeWhile_prefix_append (p := Char.isDigit)
    [digitChar ((⌊r * 100 + 1 / 2⌋).toNat % 100 / 10),
      digitChar ((⌊r * 100 + 1 / 2⌋).toNat % 10)] ('\n' :: [' ', ' '])
    (by
      intro c hc
      rcases List.mem_cons.mp hc with rfl | hc2
      · exact (digitChar_spec _ (by omega)).1
      · rw [List.mem_singleton] at hc2
        subst hc2
        exact (digitChar_spec _ (by omega)).1)
    (by
      intro c t hct
      obtain rfl := (List.cons.inj hct).1
      decide)
  rw [show (digitChar ((⌊r * 100 + 1 / 2⌋).toNat % 100 / 10) ::
      digitChar ((⌊r * 100 + 1 / 2⌋).toNat % 10) :: '\n' :: [' ', ' ']) =
    [digitChar ((⌊r * 100 + 1 / 2⌋).toNat % 100 / 10),
      digitChar ((⌊r * 100 + 1 / 2⌋).toNat % 10)] ++ '\n' :: [' ', ' '] from rfl,
    hfr.1, hfr.2]
  rw [if_neg (by
    intro hcontra
    rw [Bool.and_eq_true] at hcontra
    have := (natDigits_spec ((⌊r * 100 + 1 / 2⌋).toNat / 100)).2.2
    rcases hd : natDigits ((⌊r * 100 + 1 / 2⌋).toNat / 100) with _ | ⟨d, ds⟩
    · exact this hd
    · rw [hd] at hcontra
      cases hcontra.1)]
  rw [parseFloatExp_newline]
  rw [(natDigits_spec ((⌊r * 100 + 1 / 2⌋).toNat / 100)).2.1]
  rw [show digitsVal [digitChar ((⌊r * 100 + 1 / 2⌋).toNat % 100 / 10),
      digitChar ((⌊r * 100 + 1 / 2⌋).toNat % 10)] =
    digitVal (digitChar ((⌊r * 100 + 1 / 2⌋).toNat % 100 / 10)) * 10 +
      digitVal (digitChar ((⌊r * 100 + 1 / 2⌋).toNat % 10)) from by
    show (0 * 10 + digitVal (digitChar ((⌊r * 100 + 1 / 2⌋).toNat % 100 / 10))) * 10 +
      digitVal (digitChar ((⌊r * 100 + 1 / 2⌋).toNat % 10)) = _
    omega]
  rw [(digitChar_spec ((⌊r * 100 + 1 / 2⌋).toNat % 100 / 10) (by omega)).2.1,
    (digitChar_spec ((⌊r * 100 + 1 / 2⌋).toNat % 10) (by omega)).2.1]
  rw [round2]
  rw [show ((⌊r * 100 + 1 / 2⌋ : Int) : Rat) = (((⌊r * 100 + 1 / 2⌋).toNat : Nat) : Rat) from by
    norm_cast
    exact (Int.toNat_of_nonneg hfl).symm]
  congr 1
  rw [zpow_zero, mul_one, one_mul]
  have hdm := Nat.div_add_mod (⌊r * 100 + 1 / 2⌋).toNat 100
  have hdm2 := Nat.div_add_mod ((⌊r * 100 + 1 / 2⌋).toNat % 100) 10
  have h10 : ((⌊r * 100 + 1 / 2⌋).toNat % 100) % 10 = (⌊r * 100 + 1 / 2⌋).toNat % 10 := by
    omega
  rw [← h10]
  field_simp
  norm_cast
  omega

/-- C4 (amended): a cell is flagged as below threshold exactly when the
two-decimal rounded value that `toFixed(2)` displays — which is what
`setCellContrast` reads back out of the cell's text and parses — is
below the threshold.  The comparison sees the rounded display value,
not the full-precision ratio. -/
theorem setCellContrast_rounded (r t : Rat) (h : 0 ≤ r) :
    setCellContrast r t = decide (round2 r < t) := by
  rw [setCellContrast, parseFloat_cellText r h]

theorem setCellContrast_rounded_witness :
    setCellContrast 2 5 = decide (round2 2 < 5) :=
  setCellContrast_rounded 2 5 (by simp)

/-- C4 as stated is false on the code: at ratio 4.499 and threshold
4.5 the full-precision comparison says the cell is below threshold,
but `setCellContrast` parses the displayed `4.50` and does not flag
the cell. -/
theorem setCellContrast_counterexample :
    setCellContrast (4499 / 1000) (9 / 2) = false ∧ (4499 / 1000 : Rat) < 9 / 2 := by
  constructor
  · rw [setCellContrast, parseFloat_cellText (4499 / 1000) (by norm_num), round2]
    norm_num
  · norm_num

/-! ## Concrete evaluations of the embedded functions -/

example : hexValid "#fff" = true := by decide

example : hexValid "notacolor" = false := by decide

example : getInputData hexValid "Red: #ff0" = [⟨"#ff0", some "Red"⟩] := by decide

example : getInputData hexValid "notacolor: alsonotacolor" = [] := by decide

example : getInputData hexValid "#ff0000,\n" = [⟨"#ff0000", none⟩] := by decide

example : getInputData hexValid "Red: #fff000;\n" = [⟨"#fff000", some "Red"⟩] := by decide

example : decodeURIComponent "null" = some "null" := by decide

example : decodeURIComponent "a%20b" = some "a b" := by decide

example : decodeURIComponent "%zz" = none := by decide

example : decodeURIComponent "%C3" = none := by decide

example : decodeURIComponent (encodeURIComponent "é✓ \x7b\"a\":1\x7d") = some "é✓ \x7b\"a\":1\x7d" := by decide

example : jsonParse "null" = some Json.null := rfl

example : jsonParse "nope" = none := rfl

example : jsonParse " [ ] " = some (Json.arr []) := rfl

example : jsonParse "[]junk" = none := rfl

example : jsonParse "\x7b\"a\":true\x7d" = some (Json.obj [("a", Json.bool true)]) := rfl

example : jsonParse "[\x7b\"color\":\"#fff\"\x7d]" = some (entriesToJson [⟨"#fff", none⟩]) := rfl

example : jsonParse (stringifyEntries [⟨"#f00", some "Red"⟩, ⟨"#00f", none⟩]) =
    some (entriesToJson [⟨"#f00", some "Red"⟩, ⟨"#00f", none⟩]) := rfl

example : jsonParse "[1.5e3,-0.2,0]" =
    some (Json.arr [Json.num "1.5e3", Json.num "-0.2", Json.num "0"]) := rfl

example : jsonParse "[01]" = none := rfl

example : jsonParse "[1.]" = none := rfl

example : (setQueryParams [⟨"#fff", none⟩] [⟨"#fff", none⟩] []).bind decodeStateEntries =
    some ([⟨"#fff", none⟩], [⟨"#fff", none⟩]) := rfl

example : (setQueryParams [⟨"#fff", some "white"⟩] [⟨"#000", none⟩] [("q", "1")]).bind
    decodeStateEntries = some ([⟨"#fff", some "white"⟩], [⟨"#000", none⟩]) := rfl

example : getDataFromQueryParams [] = some (Json.null, Json.null) := rfl

example : getDataFromQueryParams [("xAxisData", "nope")] = none := rfl

example : toFixed2 (4499 / 1000 : Rat) = "4.50" := by
  have h : (⌊(4499 / 1000 * 100 + 1 / 2 : Rat)⌋) = 450 := by norm_num
  simp only [toFixed2, h]
  rfl

example : reverseInputData "#fff" "  \n " = ("#fff", "  \n ") := rfl

example : reverseInputData "#fff" "#000" = ("#000", "#fff") := rfl
